import Mathlib

/-!
Shallow embedding of the synthesizer repository's parametric-stars module
(`src/synthesizer/parametric/stars.py`) and the AGN `Template` emission model
(`src/synthesizer/emission_models/agn/models.py`), together with a
spec-modelled account of the parametric+particle hybrid spectra workflow
(`examples/cosmo/test_parametric_young_stars.py`).

Numeric values are modelled as rationals (`ℚ`); numpy arrays as `List ℚ`
and 2D arrays as `List (List ℚ)` (rectangular in all uses).  Python's
`int(...)` truncation of positive midpoint ages is modelled by `Int.floor`
(equal to truncation for the nonnegative ages that occur).  `scipy.integrate.quad`
is a black-box definite-integral primitive, modelled as a function field
`sfrIntegral : ℚ → ℚ → ℚ` of the SFH object.  `10 ** x` on floats is modelled
by an arbitrary function parameter `pow10`.  Exceptions are modelled by
`Except SynthError`.
-/

set_option linter.unusedVariables false

namespace Synthesizer

/-- The exceptions raised by the embedded code paths
(module `synthesizer.exceptions`, plus numpy's IndexError for empty arrays). -/
inductive SynthError where
  | inconsistentAddition
  | indexError
  | missingUnits
  | missingArgument
  | unimplementedFunctionality
  deriving DecidableEq

/-- The data fields of the parametric `Stars` object that the verified
properties depend on: the log-age bin centres, the metallicity bin centres
and the 2D star-formation/metal-enrichment history.  Derived display fields
(`ages`, limit pairs, `metallicity_grid`) and the optional retained functions
(`sf_hist_func`, `metal_hist_func`, `morphology`) are omitted: per the data
model they carry no independent authority. -/
structure Stars where
  log10ages : List ℚ
  metallicities : List ℚ
  sfzh : List (List ℚ)
  deriving DecidableEq

/-- Sum of a 1D array (`np.sum`). -/
def listSum (l : List ℚ) : ℚ := l.sum

/-- Sum of all entries of a 2D array (`np.sum`). -/
def sum2D (m : List (List ℚ)) : ℚ := (m.map listSum).sum

/-- Row sums: `np.sum(sfzh, axis=1)`, i.e. the derived 1D star formation
history of a `Stars` object. -/
def Stars.sfHist (s : Stars) : List ℚ := s.sfzh.map listSum

/-- `Stars.__init__`: stores the arrays.  The constructor indexes
`log10ages[0]`, `log10ages[-1]`, `metallicities[0]`, `metallicities[-1]`
to build the limit attributes, so empty bin arrays raise IndexError; apart
from that it performs no validation whatsoever (in particular no check that
`sfzh`'s dimensions match the bin-array lengths). -/
def mkStars (log10ages metallicities : List ℚ) (sfzh : List (List ℚ)) :
    Except SynthError Stars :=
  if log10ages.isEmpty || metallicities.isEmpty then .error .indexError
  else .ok ⟨log10ages, metallicities, sfzh⟩

/-- The numpy shape of a (rectangular) 2D array, as the list of row lengths
(two rectangular arrays have equal numpy shapes iff these lists are equal). -/
def shape2D (m : List (List ℚ)) : List ℕ := m.map List.length

/-- Elementwise addition of 1D arrays. -/
def zipAdd (x y : List ℚ) : List ℚ := List.zipWith (· + ·) x y

/-- Elementwise addition of 2D arrays. -/
def add2D (x y : List (List ℚ)) : List (List ℚ) := List.zipWith zipAdd x y

/-- `Stars.__add__`: if `second_sfzh.sfzh.shape == self.sfzh.shape` it returns
`Stars(self.log10ages, self.metallicities, self.sfzh + second_sfzh.sfzh)`
(a fresh instance, keeping the left operand's bin arrays); otherwise it raises
`InconsistentAddition`.  Note the code compares only the density shapes,
never the bin arrays themselves. -/
def addStars (a b : Stars) : Except SynthError Stars :=
  if shape2D b.sfzh = shape2D a.sfzh then
    .ok ⟨a.log10ages, a.metallicities, add2D a.sfzh b.sfzh⟩
  else .error .inconsistentAddition

/-- Helper for `np.argmin(np.abs(xs - x))`: returns the index and value of the
first minimal `|xs[i] - x|`, scanning from the head (ties keep the earlier
index, as numpy's argmin does). -/
def argminAux (x : ℚ) : List ℚ → Option (ℕ × ℚ)
  | [] => none
  | a :: rest =>
    match argminAux x rest with
    | none => some (0, |a - x|)
    | some (j, v) => if |a - x| ≤ v then some (0, |a - x|) else some (j + 1, v)

/-- `np.argmin(np.abs(xs - x))` (0 on an empty array, which cannot occur in
the guarded call sites). -/
def argminAbs (x : ℚ) (xs : List ℚ) : ℕ :=
  ((argminAux x xs).map Prod.fst).getD 0

/-- `np.zeros(m)` followed by `row[iZ] = v`. -/
def oneHotRow (m iZ : ℕ) (v : ℚ) : List ℚ :=
  (List.replicate m (0 : ℚ)).set iZ v

/-- `np.zeros((n, m))` followed by `sfzh[ia, iZ] = v`. -/
def oneHot2D (n m ia iZ : ℕ) (v : ℚ) : List (List ℚ) :=
  (List.replicate n (List.replicate m (0 : ℚ))).set ia (oneHotRow m iZ v)

/-- The `(i, j)` entry of a 2D array (`0` out of range; all verified uses are
in range). -/
def entry2D (m : List (List ℚ)) (i j : ℕ) : ℚ := (m.getD i []).getD j 0

/-- `generate_instant_sfzh(log10ages, metallicities, log10age, metallicity,
stellar_mass)`: zero array with the single bin at
(`argmin |log10ages - log10age|`, `argmin |metallicities - metallicity|`)
set to `stellar_mass`, wrapped in a `Stars`. -/
def generateInstantSfzh (log10ages metallicities : List ℚ)
    (log10age metallicity : ℚ) (stellar_mass : ℚ := 1) :
    Except SynthError Stars :=
  mkStars log10ages metallicities
    (oneHot2D log10ages.length metallicities.length
      (argminAbs log10age log10ages) (argminAbs metallicity metallicities)
      stellar_mass)

/-- The star formation history object: `scipy.integrate.quad(self.sfr, a, b)[0]`
is treated as the black-box definite-integral primitive `sfrIntegral a b`. -/
structure SFH where
  sfrIntegral : ℚ → ℚ → ℚ

/-- The metallicity-distribution object: a distribution-type tag (`"delta"`
for a point distribution, `"dist"` for a continuous one) and the
age-to-metallicity function `Z`. -/
structure ZDist where
  dist : String
  Z : ℚ → ℚ

/-- `int(np.mean([a, b]))`: the truncated midpoint age in years (ages are
positive in every call, where truncation coincides with `Int.floor`). -/
def midInt (a b : ℚ) : ℤ := ⌊(a + b) / 2⌋

/-- The `for ia, age in enumerate(ages[:-1])` loop body of `generate_sfzh`
in the `dist == "delta"` branch: each visited age contributes a one-hot row
holding `quad(sfr, min_age, max_age)` at the metallicity bin nearest to
`Z(age)`, with `min_age` threaded from the previous truncated midpoint; the
final age bin is never visited, so its row stays `np.zeros`. -/
def sfzhRowsAux (quad : ℚ → ℚ → ℚ) (Zf : ℚ → ℚ) (mz : List ℚ) :
    List ℚ → ℚ → List (List ℚ)
  | [], _ => []
  | [_], _ => [List.replicate mz.length 0]
  | a :: b :: rest, minAge =>
    oneHotRow mz.length (argminAbs (Zf a) mz)
        (quad minAge ((midInt a b : ℤ) : ℚ)) ::
      sfzhRowsAux quad Zf mz (b :: rest) ((midInt a b : ℤ) : ℚ)

/-- `generate_sfzh(log10ages, metallicities, sf_hist, metal_hist, stellar_mass)`:
computes `ages = 10**log10ages`, fills the 2D history only when
`metal_hist.dist == "delta"` (when the tag is `"dist"` the code merely prints
`"WARNING: NOT YET IMPLEMENTED"` and leaves the array at `np.zeros` — no
exception is raised), then normalises by the total and scales by
`stellar_mass` before wrapping in a `Stars`. -/
def generateSfzh (pow10 : ℚ → ℚ) (log10ages metallicities : List ℚ)
    (sf_hist : SFH) (metal_hist : ZDist) (stellar_mass : ℚ := 1) :
    Except SynthError Stars :=
  let ages := log10ages.map pow10
  let raw :=
    if metal_hist.dist = "delta" then
      sfzhRowsAux sf_hist.sfrIntegral metal_hist.Z metallicities ages 0
    else
      List.replicate log10ages.length (List.replicate metallicities.length 0)
  let total := sum2D raw
  mkStars log10ages metallicities
    (raw.map (fun r => r.map (fun v => v / total * stellar_mass)))

/-- The loop body of `generate_sf_hist`: identical interval structure to
`sfzhRowsAux` but producing the 1D weights, the final entry staying `0`. -/
def sfHistAux (quad : ℚ → ℚ → ℚ) : List ℚ → ℚ → List ℚ
  | [], _ => []
  | [_], _ => [0]
  | a :: b :: rest, minAge =>
    quad minAge ((midInt a b : ℤ) : ℚ) ::
      sfHistAux quad (b :: rest) ((midInt a b : ℤ) : ℚ)

/-- `generate_sf_hist(ages, sf_hist_, log10)`: optionally exponentiates the
ages, integrates the SFR over the truncated-midpoint intervals starting at
age `0`, and L1-normalises the result. -/
def generateSfHist (pow10 : ℚ → ℚ) (ages : List ℚ) (sf_hist : SFH)
    (log10 : Bool := false) : List ℚ :=
  let ages := if log10 then ages.map pow10 else ages
  let raw := sfHistAux sf_hist.sfrIntegral ages 0
  raw.map (fun v => v / listSum raw)

/-- The final accumulator value of the truncated-midpoint interval recursion:
the upper bound of the last integrated interval (`t0` itself when fewer than
two ages remain). -/
def finalMid : List ℚ → ℚ → ℚ
  | [], t0 => t0
  | [_], t0 => t0
  | a :: b :: rest, _ => finalMid (b :: rest) ((midInt a b : ℤ) : ℚ)

/-- The exact definite integral `∫ sfr` over `[p, q]` of the nonnegative,
not-identically-zero star formation rate `sfr(t) = 1` for `100 < t < 200`
and `0` otherwise: a burst lying entirely beyond the truncated midpoint `7`
of the 2-bin age grid `[4, 10]`, so every interval the builder integrates
carries zero weight. -/
def burstIntegral (p q : ℚ) : ℚ := max 0 (min q 200 - max p 100)

/-- A unyt-or-raw array argument: the payload together with whether it is a
`unyt_array` (i.e. whether `isinstance(x, unyt_array)` holds). -/
structure UnytArr where
  vals : List ℚ
  isUnyt : Bool
  deriving DecidableEq

/-- The `Sed` object built by `Template.__init__` (wavelengths and
luminosity-per-frequency). -/
structure Sed where
  lam : List ℚ
  lnu : List ℚ
  deriving DecidableEq

/-- The state a successfully constructed `Template` holds: its (normalised)
`sed` and the `normalisation` bolometric luminosity. -/
structure TemplateModel where
  sed : Sed
  normalisation : ℚ
  deriving DecidableEq

/-- `Template.__init__(label, filename, lam, lnu, fesc)`: first checks that
any supplied `lam`/`lnu` is a `unyt_array` (`MissingUnits` otherwise), then
rejects a truthy `filename` (`UnimplementedFunctionality`), then requires both
`lam` and `lnu` (`MissingArgument` otherwise) before building the `Sed` and
normalising its `lnu` by the bolometric luminosity.
`measure_bolometric_luminosity` is external, modelled by the black-box
function `bolo`. -/
def mkTemplate (bolo : List ℚ → List ℚ → ℚ) (filenameGiven : Bool)
    (lam lnu : Option UnytArr) : Except SynthError TemplateModel :=
  if (lam.map (fun a => !a.isUnyt)).getD false then .error .missingUnits
  else if (lnu.map (fun a => !a.isUnyt)).getD false then .error .missingUnits
  else if filenameGiven then .error .unimplementedFunctionality
  else
    match lam, lnu with
    | some a, some b =>
      let n := bolo a.vals b.vals
      .ok ⟨⟨a.vals, b.vals.map (fun v => v / n)⟩, n⟩
    | _, _ => .error .missingArgument

/-- A star particle of the particle-based population used by the
parametric-young-stars workflow. -/
structure Particle where
  age : ℚ
  metallicity : ℚ
  initialMass : ℚ

/-- The all-zero spectrum over `n` wavelength samples. -/
def zeroSpec (n : ℕ) : List ℚ := List.replicate n 0

/-- Elementwise sum of a list of spectra over `n` wavelength samples. -/
def sumSpecs (n : ℕ) (specs : List (List ℚ)) : List ℚ :=
  specs.foldr zipAdd (zeroSpec n)

/-- Modelled from the spec: `get_spectra_incident` on a particle population
(absent from `src/`; only its caller is present) sums the per-particle grid
spectra of the population members into a population-level spectrum. -/
def particleSpectra (n : ℕ) (spec : Particle → List ℚ) (pop : List Particle) :
    List ℚ :=
  sumSpecs n (pop.map spec)

/-- The young-star mask `ages < age_lim` of the hybrid workflow. -/
def youngMask (ageLim : ℚ) (p : Particle) : Bool := p.age < ageLim

/-- The retained old subset (`old=age_lim`): particles at or above the
threshold. -/
def oldSubset (ageLim : ℚ) (pop : List Particle) : List Particle :=
  pop.filter (fun p => !youngMask ageLim p)

/-- The young subset replaced by parametric SFZHs. -/
def youngSubset (ageLim : ℚ) (pop : List Particle) : List Particle :=
  pop.filter (youngMask ageLim)

/-- Modelled from the spec: `get_spectra_incident(grid,
parametric_young_stars=age_lim)` (absent from `src/`; only its caller is
present) evaluates the full population with each sub-threshold particle's
grid contribution replaced by the spectrum of its equivalent parametric
SFZH (`paraSpec`), every other particle contributing its grid spectrum
(`gridSpec`). -/
def combinedSpectra (n : ℕ) (ageLim : ℚ) (gridSpec paraSpec : Particle → List ℚ)
    (pop : List Particle) : List ℚ :=
  sumSpecs n (pop.map (fun p => if youngMask ageLim p then paraSpec p else gridSpec p))

/-! ### Lemmas about elementwise array addition -/

theorem zipAdd_comm (x : List ℚ) : ∀ y : List ℚ, zipAdd x y = zipAdd y x := by
  induction x with
  | nil => intro y; cases y <;> rfl
  | cons a t ih =>
    intro y
    cases y with
    | nil => rfl
    | cons b u =>
      simp only [zipAdd, List.zipWith_cons_cons]
      rw [add_comm]
      exact congrArg _ (ih u)

theorem zipAdd_assoc (x : List ℚ) :
    ∀ y z : List ℚ, zipAdd (zipAdd x y) z = zipAdd x (zipAdd y z) := by
  induction x with
  | nil => intro y z; rfl
  | cons a t ih =>
    intro y z
    cases y with
    | nil => rfl
    | cons b u =>
      cases z with
      | nil => rfl
      | cons c v =>
        simp only [zipAdd, List.zipWith_cons_cons]
        rw [add_assoc]
        exact congrArg _ (ih u v)

theorem zipAdd_left_comm (x y z : List ℚ) :
    zipAdd x (zipAdd y z) = zipAdd y (zipAdd x z) := by
  rw [← zipAdd_assoc, zipAdd_comm x y, zipAdd_assoc]

theorem length_zipAdd (x y : List ℚ) :
    (zipAdd x y).length = min x.length y.length :=
  List.length_zipWith _ _ _

theorem add2D_comm (x : List (List ℚ)) : ∀ y, add2D x y = add2D y x := by
  induction x with
  | nil => intro y; cases y <;> rfl
  | cons r t ih =>
    intro y
    cases y with
    | nil => rfl
    | cons s u =>
      simp only [add2D, List.zipWith_cons_cons]
      rw [zipAdd_comm]
      exact congrArg _ (ih u)

theorem add2D_assoc (x : List (List ℚ)) :
    ∀ y z, add2D (add2D x y) z = add2D x (add2D y z) := by
  induction x with
  | nil => intro y z; rfl
  | cons r t ih =>
    intro y z
    cases y with
    | nil => rfl
    | cons s u =>
      cases z with
      | nil => rfl
      | cons q v =>
        simp only [add2D, List.zipWith_cons_cons]
        rw [zipAdd_assoc]
        exact congrArg _ (ih u v)

theorem shape2D_add2D (x : List (List ℚ)) :
    ∀ y, shape2D y = shape2D x → shape2D (add2D x y) = shape2D x := by
  induction x with
  | nil => intro y _; rfl
  | cons r t ih =>
    intro y h
    cases y with
    | nil => simp [shape2D] at h
    | cons s u =>
      simp only [shape2D, List.map_cons, List.cons.injEq] at h
      simp only [add2D, List.zipWith_cons_cons, shape2D, List.map_cons]
      rw [List.cons.injEq]
      refine ⟨?_, ih u h.2⟩
      rw [length_zipAdd, h.1, Nat.min_self]

theorem mkStars_ok_of_ne (log10ages metallicities : List ℚ)
    (sfzh : List (List ℚ)) (h1 : log10ages ≠ []) (h2 : metallicities ≠ []) :
    mkStars log10ages metallicities sfzh = .ok ⟨log10ages, metallicities, sfzh⟩ := by
  cases log10ages with
  | nil => exact absurd rfl h1
  | cons a t =>
    cases metallicities with
    | nil => exact absurd rfl h2
    | cons b u => rfl

theorem addStars_ok (a b : Stars) (h : shape2D b.sfzh = shape2D a.sfzh) :
    addStars a b = .ok ⟨a.log10ages, a.metallicities, add2D a.sfzh b.sfzh⟩ := by
  unfold addStars
  rw [if_pos h]

/-- C5: for `Stars` instances `a`, `b`, `c` sharing equal bin grids and
equal-shaped densities, SFZH addition is commutative and associative
(`a + b = b + a` and `(a + b) + c = a + (b + c)` as whole results); the
operation is a pure function returning a fresh instance, so neither operand
is mutated. -/
theorem stars_add_comm_assoc (a b c : Stars)
    (hgab : a.log10ages = b.log10ages) (hgab' : a.metallicities = b.metallicities)
    (hgbc : b.log10ages = c.log10ages) (hgbc' : b.metallicities = c.metallicities)
    (hsab : shape2D b.sfzh = shape2D a.sfzh)
    (hsbc : shape2D c.sfzh = shape2D b.sfzh) :
    addStars a b = addStars b a ∧
    (addStars a b).bind (fun x => addStars x c) =
      (addStars b c).bind (fun y => addStars a y) := by
  constructor
  · rw [addStars_ok a b hsab, addStars_ok b a hsab.symm, hgab, hgab', add2D_comm]
  · rw [addStars_ok a b hsab, addStars_ok b c hsbc]
    show addStars ⟨a.log10ages, a.metallicities, add2D a.sfzh b.sfzh⟩ c =
      addStars a ⟨b.log10ages, b.metallicities, add2D b.sfzh c.sfzh⟩
    rw [addStars_ok ⟨a.log10ages, a.metallicities, add2D a.sfzh b.sfzh⟩ c
        (by simpa using (hsbc.trans hsab).trans (shape2D_add2D a.sfzh b.sfzh hsab).symm),
      addStars_ok a ⟨b.log10ages, b.metallicities, add2D b.sfzh c.sfzh⟩
        (by simpa using (shape2D_add2D b.sfzh c.sfzh hsbc).trans hsab)]
    rw [add2D_assoc]

/-- Witness for C5 at concrete equal-grid, equal-shape inputs. -/
theorem stars_add_comm_assoc_witness :
    ((Stars.mk [1] [1/100] [[1]]).log10ages = (Stars.mk [1] [1/100] [[2]]).log10ages) ∧
    (shape2D (Stars.mk [1] [1/100] [[2]]).sfzh = shape2D (Stars.mk [1] [1/100] [[1]]).sfzh) ∧
    (addStars ⟨[1], [1/100], [[1]]⟩ ⟨[1], [1/100], [[2]]⟩ =
        addStars ⟨[1], [1/100], [[2]]⟩ ⟨[1], [1/100], [[1]]⟩ ∧
      (addStars ⟨[1], [1/100], [[1]]⟩ ⟨[1], [1/100], [[2]]⟩).bind
          (fun x => addStars x ⟨[1], [1/100], [[3]]⟩) =
        (addStars ⟨[1], [1/100], [[2]]⟩ ⟨[1], [1/100], [[3]]⟩).bind
          (fun y => addStars ⟨[1], [1/100], [[1]]⟩ y)) :=
  ⟨rfl, rfl,
    stars_add_comm_assoc ⟨[1], [1/100], [[1]]⟩ ⟨[1], [1/100], [[2]]⟩
      ⟨[1], [1/100], [[3]]⟩ rfl rfl rfl rfl rfl rfl⟩

/-- C6 counterexample: two `Stars` with visibly different bin grids but
equal-shaped densities add without any `InconsistentAddition` error — the
code compares only density shapes, never the bin grids. -/
theorem addStars_unequal_grids_ok :
    (Stars.mk [1, 2] [1/100, 1/50] [[1, 0], [0, 1]]).log10ages ≠
      (Stars.mk [3, 4] [1/10, 1/5] [[1, 1], [1, 1]]).log10ages ∧
    (addStars ⟨[1, 2], [1/100, 1/50], [[1, 0], [0, 1]]⟩
        ⟨[3, 4], [1/10, 1/5], [[1, 1], [1, 1]]⟩).isOk = true := by
  constructor
  · intro h
    simp only [List.cons.injEq] at h
    exact absurd h.1 (by norm_num)
  · rfl

/-- C6 (amended): `Stars.__add__` raises `InconsistentAddition` exactly when
the two density arrays have different shapes; the bin grids play no role in
the check, and on success the result keeps the left operand's grids. -/
theorem addStars_inconsistent_iff (a b : Stars) :
    addStars a b = .error .inconsistentAddition ↔
      shape2D b.sfzh ≠ shape2D a.sfzh := by
  unfold addStars
  split
  · rename_i h
    simp [h]
  · rename_i h
    simp [h]

/-- C7 counterexample: constructing `Stars` directly from arrays whose
density dimensions do not match the bin-array lengths succeeds — no
`ShapeMismatch` is raised anywhere in `Stars.__init__`. -/
theorem mkStars_mismatched_ok :
    mkStars [1, 2] [1/100] [[5]] = .ok ⟨[1, 2], [1/100], [[5]]⟩ ∧
    [[(5 : ℚ)]].length ≠ [(1 : ℚ), 2].length := by
  exact ⟨rfl, by decide⟩

/-- C7 (amended): the direct-array `Stars` constructor performs no shape
validation at all: for any nonempty bin arrays it succeeds with exactly the
arrays it was given, whatever the density's dimensions (empty bin arrays
fail with numpy's IndexError while building the limit attributes). -/
theorem mkStars_no_validation (log10ages metallicities : List ℚ)
    (sfzh : List (List ℚ)) (h1 : log10ages ≠ []) (h2 : metallicities ≠ []) :
    mkStars log10ages metallicities sfzh = .ok ⟨log10ages, metallicities, sfzh⟩ :=
  mkStars_ok_of_ne log10ages metallicities sfzh h1 h2

/-- Witness for C7 (amended) at a concrete mismatched input. -/
theorem mkStars_no_validation_witness :
    ([(1 : ℚ), 2] ≠ []) ∧ ([(3 : ℚ)/200] ≠ []) ∧
    mkStars [1, 2] [3/200] [[7], [8], [9]] =
      .ok ⟨[1, 2], [3/200], [[7], [8], [9]]⟩ :=
  ⟨List.cons_ne_nil _ _, List.cons_ne_nil _ _,
    mkStars_no_validation [1, 2] [3/200] [[7], [8], [9]]
      (List.cons_ne_nil _ _) (List.cons_ne_nil _ _)⟩

/-! ### Template construction -/

/-- C8: whenever `lam` or `lnu` is supplied as a raw array without a unit tag
(not a `unyt_array`), `Template.__init__` raises `MissingUnits`; the error is
raised before the `Sed` is built, so no template with a spectrum exists. -/
theorem template_unitless_missingUnits (bolo : List ℚ → List ℚ → ℚ)
    (filenameGiven : Bool) (lam lnu : Option UnytArr) (a : UnytArr)
    (h : (lam = some a ∨ lnu = some a) ∧ a.isUnyt = false) :
    mkTemplate bolo filenameGiven lam lnu = .error .missingUnits := by
  obtain ⟨hor, hu⟩ := h
  rcases hor with rfl | rfl
  · simp [mkTemplate, hu]
  · cases lam with
    | none => simp [mkTemplate, hu]
    | some x =>
      cases hx : x.isUnyt <;> simp [mkTemplate, hu, hx]

/-- Witness for C8: a raw (unitless) `lam` with no `lnu`. -/
theorem template_unitless_missingUnits_witness :
    (((some ⟨[1], false⟩ : Option UnytArr) = some ⟨[1], false⟩ ∨
        (none : Option UnytArr) = some ⟨[1], false⟩) ∧
      (UnytArr.mk [1] false).isUnyt = false) ∧
    mkTemplate (fun _ _ => 1) false (some ⟨[1], false⟩) none =
      .error .missingUnits :=
  ⟨⟨Or.inl rfl, rfl⟩,
    template_unitless_missingUnits (fun _ _ => 1) false (some ⟨[1], false⟩)
      none ⟨[1], false⟩ ⟨Or.inl rfl, rfl⟩⟩

/-- C9 counterexample: with no filename and only a unitless `lam` supplied
(`lnu` omitted — so "lam and lnu are not both supplied" holds), construction
raises `MissingUnits`, not `MissingArgument`: the unit check precedes the
missing-argument check. -/
theorem template_unitless_not_missingArgument :
    mkTemplate (fun _ _ => 1) false (some ⟨[1], false⟩) none =
        .error .missingUnits ∧
    mkTemplate (fun _ _ => 1) false (some ⟨[1], false⟩) none ≠
        .error .missingArgument := by
  refine ⟨rfl, ?_⟩
  intro h
  exact absurd (Except.error.inj h) (by decide)

/-- C9 (amended): with no filename given and `lam`, `lnu` not both supplied,
`Template.__init__` raises `MissingArgument`, provided every array that is
supplied carries units (a unitless supplied array trips `MissingUnits`
first); in every such case the constructor errors before any `Sed` is
built. -/
theorem template_missingArgument (bolo : List ℚ → List ℚ → ℚ)
    (lam lnu : Option UnytArr)
    (hlam : ∀ a, lam = some a → a.isUnyt = true)
    (hlnu : ∀ b, lnu = some b → b.isUnyt = true)
    (hnotboth : lam = none ∨ lnu = none) :
    mkTemplate bolo false lam lnu = .error .missingArgument := by
  rcases hnotboth with rfl | rfl
  · cases lnu with
    | none => rfl
    | some b => simp [mkTemplate, hlnu b rfl]
  · cases lam with
    | none => rfl
    | some a => simp [mkTemplate, hlam a rfl]

/-- Witness for C9 (amended): neither arrays nor filename given. -/
theorem template_missingArgument_witness :
    ((∀ a : UnytArr, (none : Option UnytArr) = some a → a.isUnyt = true) ∧
      ((none : Option UnytArr) = none ∨ (none : Option UnytArr) = none)) ∧
    mkTemplate (fun _ _ => 1) false none none = .error .missingArgument :=
  ⟨⟨(fun _ h => nomatch h), Or.inl rfl⟩,
    template_missingArgument (fun _ _ => 1) none none
      (fun _ h => nomatch h) (fun _ h => nomatch h) (Or.inl rfl)⟩

/-! ### The unimplemented continuous metallicity-distribution branch -/

/-- C1 (code bug evidence): calling `generate_sfzh` with a
metallicity-distribution of type `"dist"` raises nothing — the code prints
`"WARNING: NOT YET IMPLEMENTED"` and silently returns a `Stars` whose
history was never populated (`np.zeros` fed through the normalisation),
instead of raising `UnimplementedFunctionality` as the spec requires. -/
theorem generateSfzh_dist_silently_ok :
    generateSfzh (fun q => q) [4, 10] [1/100] ⟨fun p q => q - p⟩
        ⟨"dist", fun _ => 1/100⟩ 1 =
      .ok ⟨[4, 10], [1/100], [[0], [0]]⟩ := by
  simp [generateSfzh, mkStars, sum2D, listSum, List.replicate]

/-! ### The parametric+particle hybrid invariant -/

theorem zipAdd_zeroSpec (n : ℕ) : zipAdd (zeroSpec n) (zeroSpec n) = zeroSpec n := by
  induction n with
  | zero => rfl
  | succ k ih =>
    simp only [zeroSpec, List.replicate_succ, zipAdd, List.zipWith_cons_cons, add_zero]
    exact congrArg _ ih

theorem combinedSpectra_cons (n : ℕ) (ageLim : ℚ)
    (gridSpec paraSpec : Particle → List ℚ) (p : Particle) (rest : List Particle) :
    combinedSpectra n ageLim gridSpec paraSpec (p :: rest) =
      zipAdd (if youngMask ageLim p then paraSpec p else gridSpec p)
        (combinedSpectra n ageLim gridSpec paraSpec rest) := rfl

theorem particleSpectra_cons (n : ℕ) (spec : Particle → List ℚ)
    (p : Particle) (rest : List Particle) :
    particleSpectra n spec (p :: rest) =
      zipAdd (spec p) (particleSpectra n spec rest) := rfl

/-- C2: splitting a particle population at a fixed age threshold, the hybrid
evaluation (young particles replaced by their parametric spectra) equals the
elementwise sum of the particle-only evaluation of the retained old subset
and the parametric evaluation of the young subset. -/
theorem combined_eq_old_plus_parametric (n : ℕ) (ageLim : ℚ)
    (gridSpec paraSpec : Particle → List ℚ) (pop : List Particle) :
    combinedSpectra n ageLim gridSpec paraSpec pop =
      zipAdd (particleSpectra n gridSpec (oldSubset ageLim pop))
        (particleSpectra n paraSpec (youngSubset ageLim pop)) := by
  induction pop with
  | nil => exact (zipAdd_zeroSpec n).symm
  | cons p rest ih =>
    cases hp : youngMask ageLim p with
    | true =>
      have h1 : oldSubset ageLim (p :: rest) = oldSubset ageLim rest := by
        simp [oldSubset, List.filter_cons, hp]
      have h2 : youngSubset ageLim (p :: rest) = p :: youngSubset ageLim rest := by
        simp [youngSubset, List.filter_cons, hp]
      rw [combinedSpectra_cons, hp, if_pos rfl, h1, h2, particleSpectra_cons, ih]
      exact zipAdd_left_comm _ _ _
    | false =>
      have h1 : oldSubset ageLim (p :: rest) = p :: oldSubset ageLim rest := by
        simp [oldSubset, List.filter_cons, hp]
      have h2 : youngSubset ageLim (p :: rest) = youngSubset ageLim rest := by
        simp [youngSubset, List.filter_cons, hp]
      rw [combinedSpectra_cons, hp, if_neg (by simp), h1, h2,
        particleSpectra_cons, ih]
      exact (zipAdd_assoc _ _ _).symm

/-! ### The delta (single-bin) builder -/

theorem getD_replicate_of_lt {α : Type} (n i : ℕ) (c d : α) (h : i < n) :
    (List.replicate n c).getD i d = c := by
  rw [List.getD_eq_getElem?_getD]
  simp [List.getElem?_replicate, h]

theorem getD_set_self {α : Type} (l : List α) (i : ℕ) (v d : α)
    (h : i < l.length) : (l.set i v).getD i d = v := by
  rw [List.getD_eq_getElem?_getD, List.getElem?_set_eq_of_lt _ (by simpa using h)]
  rfl

theorem getD_set_ne {α : Type} (l : List α) (i j : ℕ) (v d : α) (h : i ≠ j) :
    (l.set i v).getD j d = l.getD j d := by
  rw [List.getD_eq_getElem?_getD, List.getElem?_set_ne h, ← List.getD_eq_getElem?_getD]

theorem argminAux_spec (x : ℚ) :
    ∀ xs : List ℚ, xs ≠ [] →
      ∃ j v, argminAux x xs = some (j, v) ∧ j < xs.length ∧
        |xs.getD j 0 - x| = v ∧ ∀ k, k < xs.length → v ≤ |xs.getD k 0 - x| := by
  intro xs
  induction xs with
  | nil => intro h; exact absurd rfl h
  | cons a rest ih =>
    intro _
    cases rest with
    | nil =>
      refine ⟨0, |a - x|, rfl, by simp, by simp, ?_⟩
      intro k hk
      have hk0 : k = 0 := by simpa using Nat.lt_one_iff.mp (by simpa using hk)
      subst hk0
      simp
    | cons b t =>
      obtain ⟨j, v, hjv, hjlen, hval, hmin⟩ := ih (by simp)
      have hstep : argminAux x (a :: b :: t) =
          if |a - x| ≤ v then some (0, |a - x|) else some (j + 1, v) := by
        show (match argminAux x (b :: t) with
          | none => some (0, |a - x|)
          | some (j, v) =>
            if |a - x| ≤ v then some (0, |a - x|) else some (j + 1, v)) =
          if |a - x| ≤ v then some (0, |a - x|) else some (j + 1, v)
        rw [hjv]
      by_cases hle : |a - x| ≤ v
      · refine ⟨0, |a - x|, by rw [hstep, if_pos hle], by simp, by simp, ?_⟩
        intro k hk
        cases k with
        | zero => simp
        | succ n =>
          rw [List.getD_cons_succ]
          exact hle.trans (hmin n (by simpa using hk))
      · refine ⟨j + 1, v, by rw [hstep, if_neg hle], by simpa using hjlen, ?_, ?_⟩
        · rw [List.getD_cons_succ]
          exact hval
        · intro k hk
          cases k with
          | zero =>
            rw [List.getD_cons_zero]
            exact (not_le.mp hle).le
          | succ n =>
            rw [List.getD_cons_succ]
            exact hmin n (by simpa using hk)

theorem argminAbs_lt_length (x : ℚ) (xs : List ℚ) (h : xs ≠ []) :
    argminAbs x xs < xs.length := by
  obtain ⟨j, v, hjv, hjlen, _, _⟩ := argminAux_spec x xs h
  simpa [argminAbs, hjv] using hjlen

theorem argminAbs_nearest (x : ℚ) (xs : List ℚ) (h : xs ≠ []) :
    ∀ k, k < xs.length →
      |xs.getD (argminAbs x xs) 0 - x| ≤ |xs.getD k 0 - x| := by
  obtain ⟨j, v, hjv, _, hval, hmin⟩ := argminAux_spec x xs h
  intro k hk
  have : argminAbs x xs = j := by simp [argminAbs, hjv]
  rw [this, hval]
  exact hmin k hk

theorem listSum_replicate_zero (k : ℕ) : listSum (List.replicate k (0 : ℚ)) = 0 := by
  induction k with
  | zero => rfl
  | succ n ih =>
    rw [List.replicate_succ]
    simp [listSum] at ih ⊢

theorem listSum_oneHotRow (m iZ : ℕ) (v : ℚ) (h : iZ < m) :
    listSum (oneHotRow m iZ v) = v := by
  unfold oneHotRow at *
  induction m generalizing iZ with
  | zero => omega
  | succ n ih =>
    rw [List.replicate_succ]
    cases iZ with
    | zero =>
      show listSum (v :: List.replicate n 0) = v
      have h0 := listSum_replicate_zero n
      simp only [listSum, List.sum_cons] at *
      rw [h0, add_zero]
    | succ i =>
      show listSum ((0 : ℚ) :: (List.replicate n 0).set i v) = v
      have hi := ih i (by omega)
      simp only [listSum, List.sum_cons] at *
      rw [hi, zero_add]

theorem sum2D_cons (r : List ℚ) (rest : List (List ℚ)) :
    sum2D (r :: rest) = listSum r + sum2D rest := by
  simp [sum2D]

theorem sum2D_replicate_zero (k m : ℕ) :
    sum2D (List.replicate k (List.replicate m (0 : ℚ))) = 0 := by
  induction k with
  | zero => rfl
  | succ n ih =>
    rw [List.replicate_succ, sum2D_cons, listSum_replicate_zero m, ih, add_zero]

theorem entry2D_oneHot2D (n m ia iZ i j : ℕ) (v : ℚ)
    (hia : ia < n) (hiZ : iZ < m) (hi : i < n) (hj : j < m) :
    entry2D (oneHot2D n m ia iZ v) i j =
      if i = ia ∧ j = iZ then v else 0 := by
  unfold entry2D oneHot2D
  by_cases hieq : i = ia
  · subst hieq
    rw [getD_set_self _ _ _ _ (by simpa using hia)]
    unfold oneHotRow
    by_cases hjeq : j = iZ
    · subst hjeq
      rw [getD_set_self _ _ _ _ (by simpa using hiZ)]
      simp
    · rw [getD_set_ne _ _ _ _ _ (fun hcon => hjeq hcon.symm),
        getD_replicate_of_lt _ _ _ _ hj]
      simp [hjeq]
  · rw [getD_set_ne _ _ _ _ _ (fun hcon => hieq hcon.symm),
      getD_replicate_of_lt _ _ _ _ hi,
      getD_replicate_of_lt _ _ _ _ hj]
    simp [hieq]

theorem sum2D_oneHot2D (n m ia iZ : ℕ) (v : ℚ) (hia : ia < n) (hiZ : iZ < m) :
    sum2D (oneHot2D n m ia iZ v) = v := by
  unfold oneHot2D
  induction n generalizing ia with
  | zero => omega
  | succ k ih =>
    rw [List.replicate_succ]
    cases ia with
    | zero =>
      show sum2D (oneHotRow m iZ v :: List.replicate k (List.replicate m 0)) = v
      rw [sum2D_cons, listSum_oneHotRow m iZ v hiZ, sum2D_replicate_zero, add_zero]
    | succ ia' =>
      show sum2D (List.replicate m (0 : ℚ) ::
        (List.replicate k (List.replicate m 0)).set ia' (oneHotRow m iZ v)) = v
      rw [sum2D_cons, listSum_replicate_zero, ih ia' (by omega), zero_add]

/-- C4: `generate_instant_sfzh` returns a 2D density that is zero everywhere
except the single bin whose age index and metallicity index are each nearest
(by absolute difference) to the requested age and metallicity, and that bin
holds the entire mass. -/
theorem generate_instant_sfzh_single_bin (log10ages metallicities : List ℚ)
    (log10age metallicity mass : ℚ)
    (h1 : log10ages ≠ []) (h2 : metallicities ≠ []) :
    ∃ s, generateInstantSfzh log10ages metallicities log10age metallicity mass
        = .ok s ∧
      (∀ i, i < log10ages.length → ∀ j, j < metallicities.length →
        entry2D s.sfzh i j =
          if i = argminAbs log10age log10ages ∧
              j = argminAbs metallicity metallicities
          then mass else 0) ∧
      sum2D s.sfzh = mass ∧
      (∀ k, k < log10ages.length →
        |log10ages.getD (argminAbs log10age log10ages) 0 - log10age| ≤
          |log10ages.getD k 0 - log10age|) ∧
      (∀ k, k < metallicities.length →
        |metallicities.getD (argminAbs metallicity metallicities) 0 - metallicity| ≤
          |metallicities.getD k 0 - metallicity|) := by
  have hia := argminAbs_lt_length log10age log10ages h1
  have hiZ := argminAbs_lt_length metallicity metallicities h2
  refine ⟨⟨log10ages, metallicities,
      oneHot2D log10ages.length metallicities.length
        (argminAbs log10age log10ages) (argminAbs metallicity metallicities)
        mass⟩, ?_, ?_, ?_, ?_, ?_⟩
  · exact mkStars_ok_of_ne _ _ _ h1 h2
  · intro i hi j hj
    exact entry2D_oneHot2D _ _ _ _ _ _ mass hia hiZ hi hj
  · exact sum2D_oneHot2D _ _ _ _ mass hia hiZ
  · exact argminAbs_nearest log10age log10ages h1
  · exact argminAbs_nearest metallicity metallicities h2

/-- Witness for C4 at a concrete input. -/
theorem generate_instant_sfzh_single_bin_witness :
    ([(1 : ℚ), 2] ≠ []) ∧ ([(1 : ℚ)/100] ≠ []) ∧
    (∃ s, generateInstantSfzh [1, 2] [1/100] 2 0 5 = .ok s ∧
      (∀ i, i < [(1 : ℚ), 2].length → ∀ j, j < [(1 : ℚ)/100].length →
        entry2D s.sfzh i j =
          if i = argminAbs 2 [1, 2] ∧ j = argminAbs 0 [1/100]
          then 5 else 0) ∧
      sum2D s.sfzh = 5 ∧
      (∀ k, k < [(1 : ℚ), 2].length →
        |[(1 : ℚ), 2].getD (argminAbs 2 [1, 2]) 0 - 2| ≤
          |[(1 : ℚ), 2].getD k 0 - 2|) ∧
      (∀ k, k < [(1 : ℚ)/100].length →
        |[(1 : ℚ)/100].getD (argminAbs 0 [1/100]) 0 - 0| ≤
          |[(1 : ℚ)/100].getD k 0 - 0|)) :=
  ⟨List.cons_ne_nil _ _, List.cons_ne_nil _ _,
    generate_instant_sfzh_single_bin [1, 2] [1/100] 2 0 5
      (List.cons_ne_nil _ _) (List.cons_ne_nil _ _)⟩

/-! ### The final age bin of the analytic builders -/

theorem getLast?_map (f : ℚ → ℚ) (l : List (List ℚ)) :
    (l.map (fun r => r.map f)).getLast? = l.getLast?.map (fun r => r.map f) := by
  induction l with
  | nil => rfl
  | cons r rest ih =>
    cases rest with
    | nil => rfl
    | cons s t =>
      simp only [List.map_cons, List.getLast?_cons_cons] at ih ⊢
      exact ih

theorem getLast?_map_q (f : ℚ → ℚ) (l : List ℚ) :
    (l.map f).getLast? = l.getLast?.map f := by
  induction l with
  | nil => rfl
  | cons a rest ih =>
    cases rest with
    | nil => rfl
    | cons b t =>
      simp only [List.map_cons, List.getLast?_cons_cons] at ih ⊢
      exact ih

theorem getLast?_sfzhRowsAux (quad : ℚ → ℚ → ℚ) (Zf : ℚ → ℚ) (mz : List ℚ) :
    ∀ ages : List ℚ, ages ≠ [] → ∀ t0 : ℚ,
      (sfzhRowsAux quad Zf mz ages t0).getLast? =
        some (List.replicate mz.length 0) := by
  intro ages
  induction ages with
  | nil => intro h; exact absurd rfl h
  | cons a rest ih =>
    intro _ t0
    cases rest with
    | nil => rfl
    | cons b t =>
      show (oneHotRow mz.length (argminAbs (Zf a) mz)
          (quad t0 ((midInt a b : ℤ) : ℚ)) ::
        sfzhRowsAux quad Zf mz (b :: t) ((midInt a b : ℤ) : ℚ)).getLast? = _
      have hne := ih (by simp) ((midInt a b : ℤ) : ℚ)
      cases hrec : sfzhRowsAux quad Zf mz (b :: t) ((midInt a b : ℤ) : ℚ) with
      | nil => rw [hrec] at hne; exact absurd hne (by simp)
      | cons r u =>
        rw [hrec] at hne
        rw [List.getLast?_cons_cons]
        exact hne

theorem getLast?_sfHistAux (quad : ℚ → ℚ → ℚ) :
    ∀ ages : List ℚ, ages ≠ [] → ∀ t0 : ℚ,
      (sfHistAux quad ages t0).getLast? = some 0 := by
  intro ages
  induction ages with
  | nil => intro h; exact absurd rfl h
  | cons a rest ih =>
    intro _ t0
    cases rest with
    | nil => rfl
    | cons b t =>
      show (quad t0 ((midInt a b : ℤ) : ℚ) ::
        sfHistAux quad (b :: t) ((midInt a b : ℤ) : ℚ)).getLast? = _
      have hne := ih (by simp) ((midInt a b : ℤ) : ℚ)
      cases hrec : sfHistAux quad (b :: t) ((midInt a b : ℤ) : ℚ) with
      | nil => rw [hrec] at hne; exact absurd hne (by simp)
      | cons r u =>
        rw [hrec] at hne
        rw [List.getLast?_cons_cons]
        exact hne

/-- C10: the integration loops of `generate_sfzh` (delta branch) and
`generate_sf_hist` run over consecutive age pairs with the first interval's
lower bound at age `0` (built into `sfzhRowsAux`/`sfHistAux`, invoked with
accumulator `0`), and in both the final age bin receives zero weight: the
last row of the returned 2D density and the last entry of the returned 1D
history are identically zero, whatever the SFR function (the nonzero-total
hypotheses exclude the degenerate `0/0` numpy NaN case). -/
theorem final_age_bin_zero (pow10 : ℚ → ℚ) (sf_hist : SFH) (metal_hist : ZDist)
    (log10ages metallicities ages : List ℚ) (mass : ℚ)
    (hdelta : metal_hist.dist = "delta")
    (hla : log10ages ≠ []) (hmz : metallicities ≠ []) (hages : ages ≠ [])
    (htot : sum2D (sfzhRowsAux sf_hist.sfrIntegral metal_hist.Z metallicities
      (log10ages.map pow10) 0) ≠ 0)
    (htot' : listSum (sfHistAux sf_hist.sfrIntegral ages 0) ≠ 0) :
    (∃ s, generateSfzh pow10 log10ages metallicities sf_hist metal_hist mass
        = .ok s ∧
      s.sfzh.getLast? = some (List.replicate metallicities.length 0)) ∧
    (generateSfHist pow10 ages sf_hist false).getLast? = some 0 := by
  constructor
  · obtain ⟨d, Zf⟩ := metal_hist
    have hd : d = "delta" := hdelta
    subst hd
    have hmap : log10ages.map pow10 ≠ [] := by
      cases log10ages with
      | nil => exact absurd rfl hla
      | cons a t => simp
    refine ⟨⟨log10ages, metallicities,
      (sfzhRowsAux sf_hist.sfrIntegral Zf metallicities
          (log10ages.map pow10) 0).map
        (fun r => r.map (fun v =>
          v / sum2D (sfzhRowsAux sf_hist.sfrIntegral Zf
            metallicities (log10ages.map pow10) 0) * mass))⟩, ?_, ?_⟩
    · show mkStars log10ages metallicities
          ((sfzhRowsAux sf_hist.sfrIntegral Zf metallicities
              (log10ages.map pow10) 0).map
            (fun r => r.map (fun v =>
              v / sum2D (sfzhRowsAux sf_hist.sfrIntegral Zf
                metallicities (log10ages.map pow10) 0) * mass))) = _
      exact mkStars_ok_of_ne _ _ _ hla hmz
    · show ((sfzhRowsAux sf_hist.sfrIntegral Zf metallicities
          (log10ages.map pow10) 0).map _).getLast? = _
      rw [getLast?_map,
        getLast?_sfzhRowsAux sf_hist.sfrIntegral Zf metallicities
          (log10ages.map pow10) hmap 0]
      simp
  · show ((sfHistAux sf_hist.sfrIntegral ages 0).map
        (fun v => v / listSum (sfHistAux sf_hist.sfrIntegral ages 0))).getLast?
      = some 0
    rw [getLast?_map_q, getLast?_sfHistAux sf_hist.sfrIntegral ages hages 0]
    simp

/-- Witness for C10 at a concrete input (a 2-bin grid, unit-slope integral). -/
theorem final_age_bin_zero_witness :
    (sum2D (sfzhRowsAux (fun p q => q - p) (fun _ => 1/100) [1/100]
        ([(4 : ℚ), 10].map (fun q => q)) 0) ≠ 0) ∧
    (listSum (sfHistAux (fun p q => q - p) [(4 : ℚ), 10] 0) ≠ 0) ∧
    ((∃ s, generateSfzh (fun q => q) [4, 10] [1/100] ⟨fun p q => q - p⟩
          ⟨"delta", fun _ => 1/100⟩ 1 = .ok s ∧
        s.sfzh.getLast? = some (List.replicate [(1 : ℚ)/100].length 0)) ∧
      (generateSfHist (fun q => q) [4, 10] ⟨fun p q => q - p⟩ false).getLast?
        = some 0) :=
  ⟨by norm_num [sfzhRowsAux, sum2D, listSum, oneHotRow, argminAbs, argminAux, midInt],
    by norm_num [sfHistAux, listSum, midInt],
    final_age_bin_zero (fun q => q) ⟨fun p q => q - p⟩ ⟨"delta", fun _ => 1/100⟩
      [4, 10] [1/100] [4, 10] 1 rfl (List.cons_ne_nil _ _) (List.cons_ne_nil _ _)
      (List.cons_ne_nil _ _)
      (by norm_num [sfzhRowsAux, sum2D, listSum, oneHotRow, argminAbs, argminAux, midInt])
      (by norm_num [sfHistAux, listSum, midInt])⟩

/-! ### Normalisation of the analytic builder -/

theorem sum2D_sfzhRowsAux (Zf : ℚ → ℚ) (mz : List ℚ) (c : ℚ)
    (quad : ℚ → ℚ → ℚ) (hmz : mz ≠ [])
    (hquad : ∀ p q, quad p q = c * (q - p)) :
    ∀ (ages : List ℚ) (t0 : ℚ),
      sum2D (sfzhRowsAux quad Zf mz ages t0) = c * (finalMid ages t0 - t0) := by
  intro ages
  induction ages with
  | nil => intro t0; show (0 : ℚ) = c * (t0 - t0); ring
  | cons a rest ih =>
    intro t0
    cases rest with
    | nil =>
      show sum2D [List.replicate mz.length 0] = c * (t0 - t0)
      rw [sum2D_cons, listSum_replicate_zero]
      show (0 : ℚ) + 0 = c * (t0 - t0)
      ring
    | cons b t =>
      show sum2D (oneHotRow mz.length (argminAbs (Zf a) mz)
          (quad t0 ((midInt a b : ℤ) : ℚ)) ::
        sfzhRowsAux quad Zf mz (b :: t) ((midInt a b : ℤ) : ℚ)) =
        c * (finalMid (b :: t) ((midInt a b : ℤ) : ℚ) - t0)
      rw [sum2D_cons,
        listSum_oneHotRow mz.length (argminAbs (Zf a) mz) _
          (argminAbs_lt_length (Zf a) mz hmz),
        ih ((midInt a b : ℤ) : ℚ), hquad]
      ring

theorem finalMid_ge_two :
    ∀ (ages : List ℚ) (t0 : ℚ), 2 ≤ ages.length → (∀ a ∈ ages, 2 ≤ a) →
      2 ≤ finalMid ages t0 := by
  intro ages
  induction ages with
  | nil => intro t0 hlen _; simp at hlen
  | cons a rest ih =>
    intro t0 hlen hmem
    cases rest with
    | nil => simp at hlen
    | cons b t =>
      show 2 ≤ finalMid (b :: t) ((midInt a b : ℤ) : ℚ)
      cases t with
      | nil =>
        show 2 ≤ ((midInt a b : ℤ) : ℚ)
        have ha := hmem a (by simp)
        have hb := hmem b (by simp)
        have h2 : (2 : ℤ) ≤ midInt a b := by
          rw [midInt]
          refine Int.le_floor.mpr ?_
          push_cast
          linarith
        exact_mod_cast h2
      | cons e u =>
        exact ih ((midInt a b : ℤ) : ℚ) (by simp)
          (fun x hx => hmem x (List.mem_cons_of_mem a hx))

theorem listSum_div_mul (t mass : ℚ) (l : List ℚ) :
    listSum (l.map (fun v => v / t * mass)) = listSum l / t * mass := by
  induction l with
  | nil =>
    show (0 : ℚ) = 0 / t * mass
    ring
  | cons a rest ih =>
    simp only [List.map_cons, listSum, List.sum_cons] at ih ⊢
    rw [ih]
    ring

theorem sum2D_div_mul (t mass : ℚ) (m : List (List ℚ)) :
    sum2D (m.map (fun r => r.map (fun v => v / t * mass))) =
      sum2D m / t * mass := by
  induction m with
  | nil =>
    show (0 : ℚ) = 0 / t * mass
    ring
  | cons r rest ih =>
    rw [List.map_cons, sum2D_cons, sum2D_cons, listSum_div_mul, ih]
    ring

/-- C3 counterexample: with the strictly increasing bins `[4, 10]` /
`[1/100]`, a delta distribution and the nonnegative, not-identically-zero
SFR whose definite integral is `burstIntegral` (unit rate on `(100, 200)`,
a burst entirely beyond the last truncated midpoint `7`), every integrated
weight is zero, so the total is zero, the `sfzh /= np.sum(sfzh)` step
divides by zero (NaN in numpy, `0` in this rational model) and the returned
density does not sum to the requested total mass `5`. -/
theorem generate_sfzh_zero_total_not_mass :
    ([(4 : ℚ), 10].Chain' (· < ·)) ∧
    (∀ p q : ℚ, 0 ≤ burstIntegral p q) ∧
    burstIntegral 0 200 = 100 ∧
    (∃ s, generateSfzh (fun q => q) [4, 10] [1/100] ⟨burstIntegral⟩
        ⟨"delta", fun _ => 1/100⟩ 5 = .ok s ∧ sum2D s.sfzh ≠ 5) := by
  refine ⟨?_, ?_, ?_, ⟨[4, 10], [1/100], [[0], [0]]⟩, ?_, ?_⟩
  · norm_num [List.chain'_cons]
  · intro p q
    exact le_max_left 0 _
  · norm_num [burstIntegral]
  · norm_num [generateSfzh, mkStars, sfzhRowsAux, sum2D, listSum, oneHotRow,
      argminAbs, argminAux, midInt, burstIntegral]
  · norm_num [sum2D, listSum]

/-- C3 (amended): for every strictly increasing age and metallicity bin
array, every SFR function (an arbitrary black-box definite-integral
primitive, subsuming the nonnegative ones) and every delta-type metallicity
distribution, `generate_sfzh` L1-normalises the 2D density and multiplies by
the requested total mass, so the returned density sums exactly to
`stellar_mass` — provided the integrated weights have nonzero total.  A
nonnegative, not-identically-zero SFR can still integrate to zero over the
covered intervals `[0, last truncated midpoint]`, in which case the `0/0`
normalisation makes the numpy history NaN instead (see the
counterexample). -/
theorem generate_sfzh_total_mass (pow10 : ℚ → ℚ) (sf_hist : SFH)
    (metal_hist : ZDist) (log10ages metallicities : List ℚ) (mass : ℚ)
    (hdelta : metal_hist.dist = "delta")
    (hla : log10ages ≠ []) (hmz : metallicities ≠ [])
    (hchain : log10ages.Chain' (· < ·))
    (hchainZ : metallicities.Chain' (· < ·))
    (htot : sum2D (sfzhRowsAux sf_hist.sfrIntegral metal_hist.Z metallicities
      (log10ages.map pow10) 0) ≠ 0) :
    ∃ s, generateSfzh pow10 log10ages metallicities sf_hist metal_hist mass
        = .ok s ∧ sum2D s.sfzh = mass := by
  obtain ⟨d, Zf⟩ := metal_hist
  have hd : d = "delta" := hdelta
  subst hd
  refine ⟨⟨log10ages, metallicities,
    (sfzhRowsAux sf_hist.sfrIntegral Zf metallicities
        (log10ages.map pow10) 0).map
      (fun r => r.map (fun v =>
        v / sum2D (sfzhRowsAux sf_hist.sfrIntegral Zf metallicities
          (log10ages.map pow10) 0) * mass))⟩, ?_, ?_⟩
  · show mkStars log10ages metallicities
        ((sfzhRowsAux sf_hist.sfrIntegral Zf metallicities
            (log10ages.map pow10) 0).map
          (fun r => r.map (fun v =>
            v / sum2D (sfzhRowsAux sf_hist.sfrIntegral Zf metallicities
              (log10ages.map pow10) 0) * mass))) = _
    exact mkStars_ok_of_ne _ _ _ hla hmz
  · show sum2D ((sfzhRowsAux sf_hist.sfrIntegral Zf metallicities
        (log10ages.map pow10) 0).map
      (fun r => r.map (fun v =>
        v / sum2D (sfzhRowsAux sf_hist.sfrIntegral Zf metallicities
          (log10ages.map pow10) 0) * mass))) = mass
    rw [sum2D_div_mul, div_self htot, one_mul]

/-- Witness for C3 (amended) at a concrete input: two age bins `[4, 10]`,
one metallicity bin, constant-rate integral `3 * (q - p)`, total mass `5`
(the integrated total is `21 ≠ 0`). -/
theorem generate_sfzh_total_mass_witness :
    (sum2D (sfzhRowsAux (fun p q => 3 * (q - p)) (fun _ => 1/100) [1/100]
        ([(4 : ℚ), 10].map (fun q => q)) 0) ≠ 0) ∧
    (∃ s, generateSfzh (fun q => q) [4, 10] [1/100] ⟨fun p q => 3 * (q - p)⟩
        ⟨"delta", fun _ => 1/100⟩ 5 = .ok s ∧ sum2D s.sfzh = 5) :=
  ⟨by norm_num [sfzhRowsAux, sum2D, listSum, oneHotRow, argminAbs, argminAux,
      midInt],
    generate_sfzh_total_mass (fun q => q) ⟨fun p q => 3 * (q - p)⟩
      ⟨"delta", fun _ => 1/100⟩ [4, 10] [1/100] 5 rfl
      (List.cons_ne_nil _ _) (List.cons_ne_nil _ _)
      (by norm_num [List.chain'_cons])
      (by simp)
      (by norm_num [sfzhRowsAux, sum2D, listSum, oneHotRow, argminAbs,
        argminAux, midInt])⟩

end Synthesizer
